import Mathlib

/-! Verification of the `aws-secretsmanager-cache-rust` crate: a shallow embedding of
the caching engine in `src/cache.rs`, `src/cache_item.rs` and `src/config.rs`.

Modelling conventions:
* Time is a `Nat` counting nanoseconds since the Unix epoch; the wall clock read
  `current_time_in_nanoseconds()` becomes an explicit `now : Nat` argument.
* The AWS Secrets Manager client is an opaque dependency; it is modelled as a
  function `Request → Except ε GetSecretValueResponse`: given a secret id and a
  version stage it either returns a response or a typed error `ε` (mirroring
  `SdkError<GetSecretValueError>`).
* The `.unwrap()` on a missing `secret_string` in `fetch_secret` is modelled by
  the explicit outcome `FetchOutcome.panicked`.
* `send` returns, besides its outcome, the updated cache state and the list of
  requests it issued to the remote source, so that "no remote call" properties
  are statable.
-/

/-- Embeds `CacheItem<String>` from `src/cache_item.rs`: a cached secret value together
with its absolute expiry time in nanoseconds since the Unix epoch. -/
structure CacheItem where
  value : String
  ttl : Nat
  deriving DecidableEq, Repr

/-- Embeds `CacheItem::new`: the expiry is computed at construction as the current time
plus the configured TTL (`current_time_in_nanoseconds() + cache_item_ttl`). -/
def CacheItem.new (value : String) (cache_item_ttl : Nat) (now : Nat) : CacheItem :=
  { value := value, ttl := now + cache_item_ttl }

/-- Embeds `CacheItem::is_expired`: `current_time_in_nanoseconds() > self.ttl`. -/
def CacheItem.is_expired (item : CacheItem) (now : Nat) : Bool :=
  decide (item.ttl < now)

/-- Predicate selecting the association-list entry for key `k`. -/
def keyIs (k : String) : String × CacheItem → Bool := fun p => p.1 == k

/-- Modelled from the spec: the `lru::LruCache` used by `SecretCache` is not part
of this repository; the EvictionStore section of the spec describes it as a
bounded key-to-entry map with least-recently-used eviction. The model is an
association list with the most-recently-used entry at the head and the
least-recently-used entry at the tail, bounded by `cap`. -/
structure LruCache where
  cap : Nat
  items : List (String × CacheItem)
  deriving DecidableEq, Repr

/-- Embeds `LruCache::new(cap)`: an empty cache with the given capacity. -/
def LruCache.empty (cap : Nat) : LruCache :=
  { cap := cap, items := [] }

/-- Pure lookup of the entry stored under `k` (no promotion). -/
def LruCache.find (c : LruCache) (k : String) : Option CacheItem :=
  (c.items.find? (keyIs k)).map Prod.snd

/-- The item list after the promotion performed by `LruCache::get`: on a hit
the entry moves to the most-recently-used position (the head); on a miss
nothing changes. -/
def touchItems (items : List (String × CacheItem)) (k : String) : List (String × CacheItem) :=
  match items.find? (keyIs k) with
  | some p => p :: items.filter (fun q => !(keyIs k q))
  | none => items

/-- The promotion performed by `LruCache::get` on the store state. -/
def LruCache.touch (c : LruCache) (k : String) : LruCache :=
  { c with items := touchItems c.items k }

/-- Embeds `LruCache::get`: returns the entry under `k` (if any) and promotes it. -/
def LruCache.get (c : LruCache) (k : String) : Option CacheItem × LruCache :=
  (c.find k, c.touch k)

/-- The item list after `LruCache::put`: the new entry sits at the
most-recently-used position (replacing any previous entry for `k`); when the
insertion of a new key would exceed the capacity, the least-recently-used entry
(the tail) is dropped first. -/
def putItems (cap : Nat) (items : List (String × CacheItem)) (k : String) (v : CacheItem) :
    List (String × CacheItem) :=
  let l := (k, v) :: items.filter (fun q => !(keyIs k q))
  if cap < l.length then l.dropLast else l

/-- Embeds `LruCache::put`: inserts or overwrites the entry under `k`. -/
def LruCache.put (c : LruCache) (k : String) (v : CacheItem) : LruCache :=
  { c with items := putItems c.cap c.items k v }

/-- Holds (as `true`) iff the cache stores an entry under `k`. -/
def containsKey (c : LruCache) (k : String) : Bool :=
  c.items.any (keyIs k)

/-- Well-formedness of the association list: every key occurs at most once. -/
def keysNodup (c : LruCache) : Prop :=
  (c.items.map Prod.fst).Nodup

/-- An abstract operation on the eviction store, for stating invariants over
arbitrary operation sequences. -/
inductive CacheOp where
  | getOp (k : String)
  | putOp (k : String) (item : CacheItem)
  deriving DecidableEq

/-- Applies one store operation (the state change of `get` or `put`). -/
def LruCache.applyOp (c : LruCache) (op : CacheOp) : LruCache :=
  match op with
  | .getOp k => (c.get k).2
  | .putOp k item => c.put k item

/-- Constant `DEFAULT_MAX_CACHE_SIZE` from `src/config.rs`. -/
def DEFAULT_MAX_CACHE_SIZE : Nat := 1024

/-- Constant `DEFAULT_CACHE_ITEM_TTL` from `src/config.rs` (1 hour in nanoseconds). -/
def DEFAULT_CACHE_ITEM_TTL : Nat := 3600000000000

/-- Constant `DEFAULT_VERSION_STAGE` from `src/config.rs`. -/
def DEFAULT_VERSION_STAGE : String := "AWSCURRENT"

/-- Embeds `CacheConfig` from `src/config.rs`. -/
structure CacheConfig where
  max_cache_size : Nat
  cache_item_ttl : Nat
  version_stage : String
  deriving DecidableEq, Repr

/-- Embeds `CacheConfig::new`: the default configuration. -/
def CacheConfig.new : CacheConfig :=
  { max_cache_size := DEFAULT_MAX_CACHE_SIZE,
    cache_item_ttl := DEFAULT_CACHE_ITEM_TTL,
    version_stage := DEFAULT_VERSION_STAGE }

/-- The builder-style setter `CacheConfig::max_cache_size`. -/
def CacheConfig.set_max_cache_size (c : CacheConfig) (n : Nat) : CacheConfig :=
  { c with max_cache_size := n }

/-- The builder-style setter `CacheConfig::cache_item_ttl`. -/
def CacheConfig.set_cache_item_ttl (c : CacheConfig) (n : Nat) : CacheConfig :=
  { c with cache_item_ttl := n }

/-- Embeds `SecretCache` from `src/cache.rs`, without the client handle (the client is
passed to `send` as the function modelling the remote source). -/
structure SecretCache where
  config : CacheConfig
  cache : LruCache
  deriving DecidableEq, Repr

/-- Embeds `SecretCache::new_cache`: the `NonZeroUsize::new(config.max_cache_size)
.unwrap_or(NonZeroUsize::new(1)...)` coerces a configured capacity of zero
to 1. -/
def SecretCache.new_cache (config : CacheConfig) : SecretCache :=
  { config := config,
    cache := LruCache.empty (if config.max_cache_size = 0 then 1 else config.max_cache_size) }

/-- Embeds `SecretCache::new`: default configuration. -/
def SecretCache.new : SecretCache :=
  SecretCache.new_cache CacheConfig.new

/-- Embeds `SecretCache::new_with_config`. -/
def SecretCache.new_with_config (config : CacheConfig) : SecretCache :=
  SecretCache.new_cache config

/-- The request issued to the remote source by `fetch_secret`: the builder chain
`get_secret_value().secret_id(...).version_stage(...)`. -/
structure Request where
  secret_id : String
  version_stage : String
  deriving DecidableEq, Repr

/-- The part of the `GetSecretValue` response that `fetch_secret` reads: the
optional `secret_string` field (absent e.g. for binary-only secrets). -/
structure GetSecretValueResponse where
  secret_string : Option String
  deriving DecidableEq, Repr

/-- Result of `fetch_secret`: a secret string, a propagated remote error, or a
panic (the `.unwrap()` on an absent `secret_string`). -/
inductive FetchOutcome (ε : Type) where
  | ok (value : String)
  | panicked
  | err (e : ε)
  deriving DecidableEq

/-- Embeds `GetSecretStringBuilder::fetch_secret`: sends `(secret_id, version_stage)`
to the remote source and unwraps `secret_string` from a successful response. -/
def fetch_secret {ε : Type} (remote : Request → Except ε GetSecretValueResponse)
    (secret_id : String) (version_stage : String) : FetchOutcome ε :=
  match remote { secret_id := secret_id, version_stage := version_stage } with
  | .ok resp =>
    match resp.secret_string with
    | some s => .ok s
    | none => .panicked
  | .error e => .err e

/-- Embeds `GetSecretStringBuilder` from `src/cache.rs`. -/
structure GetSecretStringBuilder where
  secret_cache : SecretCache
  secret_id : String
  force_refresh : Bool
  deriving DecidableEq, Repr

/-- Embeds `GetSecretStringBuilder::new`: `force_refresh` defaults to `false`. -/
def GetSecretStringBuilder.new (secret_cache : SecretCache) (secret_id : String) :
    GetSecretStringBuilder :=
  { secret_cache := secret_cache, secret_id := secret_id, force_refresh := false }

/-- The `force_refresh()` modifier: sets the flag to `true`. -/
def GetSecretStringBuilder.with_force_refresh (b : GetSecretStringBuilder) :
    GetSecretStringBuilder :=
  { b with force_refresh := true }

/-- The single request that a `send` through this builder can issue: the
requested secret id paired with the configured version stage. -/
def GetSecretStringBuilder.request (b : GetSecretStringBuilder) : Request :=
  { secret_id := b.secret_id, version_stage := b.secret_cache.config.version_stage }

/-- Outcome of `send`: a value, a propagated remote error, or a panic. -/
inductive SendOutcome (ε : Type) where
  | ok (value : String)
  | error (e : ε)
  | panicked
  deriving DecidableEq

/-- Converts the outcome of `fetch_secret` into the outcome of `send`. -/
def SendOutcome.ofFetch {ε : Type} : FetchOutcome ε → SendOutcome ε
  | .ok v => .ok v
  | .panicked => .panicked
  | .err e => .error e

/-- Result of one `send`: its outcome, the cache state after the call, and the
list of requests issued to the remote source during the call. -/
structure SendResult (ε : Type) where
  outcome : SendOutcome ε
  state : SecretCache
  calls : List Request
  deriving DecidableEq

/-- The refresh path of `send`: call `fetch_secret`; on success build a
`CacheItem` with the configured TTL and `put` it; on error propagate the error
without touching the store (`cache₁` is the store as left by the earlier
lookup). -/
def send_fetch {ε : Type} (remote : Request → Except ε GetSecretValueResponse)
    (now : Nat) (b : GetSecretStringBuilder) (cache₁ : LruCache) : SendResult ε :=
  let sc := b.secret_cache
  let req : Request := { secret_id := b.secret_id, version_stage := sc.config.version_stage }
  match fetch_secret remote b.secret_id sc.config.version_stage with
  | .ok v =>
    { outcome := .ok v,
      state := { sc with cache := cache₁.put b.secret_id (CacheItem.new v sc.config.cache_item_ttl now) },
      calls := [req] }
  | .panicked =>
    { outcome := .panicked, state := { sc with cache := cache₁ }, calls := [req] }
  | .err e =>
    { outcome := .error e, state := { sc with cache := cache₁ }, calls := [req] }

/-- Embeds `GetSecretStringBuilder::send` from `src/cache.rs`: unless `force_refresh`
is set, look the id up in the cache (which promotes a hit, expired or not) and
serve a non-expired hit directly; otherwise fetch from the remote source and
write the result back. -/
def GetSecretStringBuilder.send {ε : Type} (remote : Request → Except ε GetSecretValueResponse)
    (now : Nat) (b : GetSecretStringBuilder) : SendResult ε :=
  if b.force_refresh then
    send_fetch remote now b b.secret_cache.cache
  else
    match b.secret_cache.cache.find b.secret_id with
    | some item =>
      if item.is_expired now then
        send_fetch remote now b (b.secret_cache.cache.touch b.secret_id)
      else
        { outcome := .ok item.value,
          state := { b.secret_cache with cache := b.secret_cache.cache.touch b.secret_id },
          calls := [] }
    | none => send_fetch remote now b (b.secret_cache.cache.touch b.secret_id)

/-- The three conditions under which `send` reaches the remote fetch: the
`force_refresh` flag, a cache miss, or an expired hit. -/
def fetchPath (now : Nat) (b : GetSecretStringBuilder) : Prop :=
  b.force_refresh = true ∨
    b.secret_cache.cache.find b.secret_id = none ∨
    ∃ item, b.secret_cache.cache.find b.secret_id = some item ∧ item.is_expired now = true

/-! ### Helper lemmas about the association-list LRU model -/

/-- Characterizes `keyIs` by propositional equality of keys. -/
theorem keyIs_iff (k : String) (p : String × CacheItem) : keyIs k p = true ↔ p.1 = k := by
  simp [keyIs]

/-- Filtering with a weaker predicate does not change the first match of a
stronger one. -/
theorem find?_filter_keep {α : Type} (p q : α → Bool) (h : ∀ a, p a = true → q a = true) :
    ∀ l : List α, (l.filter q).find? p = l.find? p
  | [] => rfl
  | a :: l => by
    by_cases hq : q a = true
    · rw [List.filter_cons_of_pos hq]
      by_cases hp : p a = true
      · rw [List.find?_cons_of_pos _ hp, List.find?_cons_of_pos _ hp]
      · rw [List.find?_cons_of_neg _ hp, List.find?_cons_of_neg _ hp,
          find?_filter_keep p q h l]
    · rw [List.filter_cons_of_neg hq]
      have hp : ¬ p a = true := fun hpa => hq (h a hpa)
      rw [List.find?_cons_of_neg _ hp, find?_filter_keep p q h l]

/-- Membership survives removal of the last element. -/
theorem mem_of_mem_dropLast {α : Type} {a : α} :
    ∀ (l : List α), a ∈ l.dropLast → a ∈ l
  | [], h => by simp at h
  | [x], h => by simp [List.dropLast] at h
  | x :: y :: ys, h => by
    rw [List.dropLast_cons₂] at h
    rcases List.mem_cons.mp h with h | h
    · exact h ▸ List.mem_cons_self x _
    · exact List.mem_cons_of_mem x (mem_of_mem_dropLast (y :: ys) h)

/-- Removing the matches of a successful `find?` strictly shrinks the list. -/
theorem length_filter_lt_of_found {α : Type} (p : α → Bool) :
    ∀ (l : List α) (a : α), l.find? p = some a →
      (l.filter (fun x => !(p x))).length < l.length
  | [], a, h => by simp [List.find?] at h
  | x :: l, a, h => by
    by_cases hp : p x = true
    · rw [List.filter_cons_of_neg (by simp [hp])]
      exact Nat.lt_succ_of_le (List.length_filter_le _ l)
    · rw [List.find?_cons_of_neg _ hp] at h
      rw [List.filter_cons_of_pos (by simp [hp])]
      simpa using length_filter_lt_of_found p l a h

/-- If `k` is not a key of the store, filtering `k` out changes nothing. -/
theorem filter_eq_self_of_not_contains (c : LruCache) (k : String)
    (h : containsKey c k = false) :
    c.items.filter (fun q => !(keyIs k q)) = c.items := by
  apply List.filter_eq_self.mpr
  intro a ha
  have h' : ∀ a ∈ c.items, ¬ keyIs k a = true := by
    simpa [containsKey, List.any_eq_true] using h
  simp [h' a ha]

/-- Promotion keeps the capacity. -/
theorem touch_cap (c : LruCache) (k : String) : (c.touch k).cap = c.cap := rfl

/-- Insertion keeps the capacity. -/
theorem put_cap (c : LruCache) (k : String) (v : CacheItem) : (c.put k v).cap = c.cap := rfl

/-- LRU promotion does not change which value is stored under any key. -/
theorem touch_find (c : LruCache) (k k' : String) : (c.touch k).find k' = c.find k' := by
  show (LruCache.find { c with items := touchItems c.items k } k') = c.find k'
  unfold LruCache.find touchItems
  cases hf : c.items.find? (keyIs k) with
  | none => rfl
  | some p =>
    simp only
    by_cases hk : k' = k
    · subst hk
      have hp : keyIs k' p = true := List.find?_some hf
      rw [List.find?_cons_of_pos _ hp, hf]
    · have hpk : p.1 = k := (keyIs_iff k p).mp (List.find?_some hf)
      have hp : ¬ keyIs k' p = true := by
        rw [keyIs_iff, hpk]
        exact fun h => hk h.symm
      rw [List.find?_cons_of_neg _ hp]
      rw [find?_filter_keep (keyIs k') (fun q => !(keyIs k q)) ?imp c.items]
      case imp =>
        intro a ha
        have ha' : a.1 = k' := (keyIs_iff k' a).mp ha
        simp [keyIs, ha', hk]

/-- Every entry of the promoted store was already in the store. -/
theorem touch_mem {c : LruCache} {k : String} {p : String × CacheItem}
    (h : p ∈ (c.touch k).items) : p ∈ c.items := by
  have h' : p ∈ touchItems c.items k := h
  unfold touchItems at h'
  cases hf : c.items.find? (keyIs k) with
  | none => rw [hf] at h'; exact h'
  | some q =>
    rw [hf] at h'
    rcases List.mem_cons.mp h' with h'' | h''
    · exact h'' ▸ List.mem_of_find?_eq_some hf
    · exact (List.mem_filter.mp h'').1

/-- Every entry of the store after a `put` is the new entry or an old entry. -/
theorem put_mem {c : LruCache} {k : String} {v : CacheItem} {p : String × CacheItem}
    (h : p ∈ (c.put k v).items) : p = (k, v) ∨ p ∈ c.items := by
  have h' : p ∈ putItems c.cap c.items k v := h
  unfold putItems at h'
  simp only at h'
  have hsub : p ∈ (k, v) :: c.items.filter (fun q => !(keyIs k q)) := by
    by_cases hc : c.cap < ((k, v) :: c.items.filter (fun q => !(keyIs k q))).length
    · rw [if_pos hc] at h'
      exact mem_of_mem_dropLast _ h'
    · rw [if_neg hc] at h'
      exact h'
  rcases List.mem_cons.mp hsub with h'' | h''
  · exact Or.inl h''
  · exact Or.inr (List.mem_filter.mp h'').1

/-! ### Claims -/

/-- C7: configuration never rejects a max-entries value of zero: the setter
stores zero (indeed any value) unchanged, and at cache-construction time a
configured capacity of zero is coerced to 1, so every constructed cache has
capacity at least 1. -/
theorem claim_C7_zero_capacity_coerced :
    (∀ (c : CacheConfig) (n : Nat), (c.set_max_cache_size n).max_cache_size = n) ∧
    (∀ c : CacheConfig, (SecretCache.new_with_config c).cache.cap =
      if c.max_cache_size = 0 then 1 else c.max_cache_size) ∧
    (∀ c : CacheConfig, 1 ≤ (SecretCache.new_with_config c).cache.cap) := by
  refine ⟨fun c n => rfl, fun c => rfl, fun c => ?_⟩
  show 1 ≤ (if c.max_cache_size = 0 then 1 else c.max_cache_size)
  by_cases h : c.max_cache_size = 0
  · rw [if_pos h]
  · rw [if_neg h]
    exact Nat.one_le_iff_ne_zero.mpr h

/-- C10: the default configuration has max_cache_size 1024, a TTL of one hour
in nanoseconds, and version stage "AWSCURRENT"; a freshly built
`GetSecretStringBuilder` has `force_refresh = false` and carries the requested
secret id. -/
theorem claim_C10_defaults :
    CacheConfig.new.max_cache_size = 1024 ∧
    CacheConfig.new.cache_item_ttl = 3600 * 1000000000 ∧
    CacheConfig.new.version_stage = "AWSCURRENT" ∧
    (∀ (sc : SecretCache) (id : String),
      (GetSecretStringBuilder.new sc id).force_refresh = false ∧
      (GetSecretStringBuilder.new sc id).secret_id = id ∧
      (GetSecretStringBuilder.new sc id).secret_cache = sc) := by
  exact ⟨rfl, rfl, rfl, fun sc id => ⟨rfl, rfl, rfl⟩⟩

/-- C9: every remote fetch performed by `send` carries the requested secret id
together with the configured version stage, unmodified: the list of requests
issued is either empty (cache hit) or exactly the one request built from
`secret_id` and `config.version_stage`. -/
theorem claim_C9_request_fields {ε : Type}
    (remote : Request → Except ε GetSecretValueResponse) (now : Nat)
    (b : GetSecretStringBuilder) :
    (b.send remote now).calls = [] ∨
      (b.send remote now).calls =
        [{ secret_id := b.secret_id,
           version_stage := b.secret_cache.config.version_stage }] := by
  unfold GetSecretStringBuilder.send send_fetch
  by_cases hf : b.force_refresh = true
  · simp only [hf, if_true]
    cases fetch_secret remote b.secret_id b.secret_cache.config.version_stage <;> simp
  · simp only [hf, if_false]
    cases b.secret_cache.cache.find b.secret_id with
    | some item =>
      by_cases he : item.is_expired now = true
      · simp only [he, if_true]
        cases fetch_secret remote b.secret_id b.secret_cache.config.version_stage <;> simp
      · simp only [he, if_false]
        exact Or.inl rfl
    | none =>
      cases fetch_secret remote b.secret_id b.secret_cache.config.version_stage <;> simp

/-- Behaviour of `send_fetch` when the remote source returns an error: the error is
propagated verbatim and the store is left as the lookup left it. -/
theorem send_fetch_error {ε : Type} {remote : Request → Except ε GetSecretValueResponse}
    {now : Nat} {b : GetSecretStringBuilder} {cache₁ : LruCache} {e : ε}
    (herr : remote b.request = .error e) :
    send_fetch remote now b cache₁ =
      { outcome := .error e,
        state := { b.secret_cache with cache := cache₁ },
        calls := [b.request] } := by
  simp only [send_fetch, fetch_secret, GetSecretStringBuilder.request] at herr ⊢
  simp only [herr]

/-- Behaviour of `send_fetch` when the remote source succeeds with a present secret string:
the value is stored under the id with the configured TTL. -/
theorem send_fetch_ok {ε : Type} {remote : Request → Except ε GetSecretValueResponse}
    {now : Nat} {b : GetSecretStringBuilder} {cache₁ : LruCache} {v : String}
    (hok : remote b.request = .ok { secret_string := some v }) :
    send_fetch remote now b cache₁ =
      { outcome := .ok v,
        state := { b.secret_cache with
          cache := cache₁.put b.secret_id
            (CacheItem.new v b.secret_cache.config.cache_item_ttl now) },
        calls := [b.request] } := by
  simp only [send_fetch, fetch_secret, GetSecretStringBuilder.request] at hok ⊢
  simp only [hok]

/-- Behaviour of `send_fetch` when the remote source succeeds without a secret string: the
`.unwrap()` panics. -/
theorem send_fetch_panic {ε : Type} {remote : Request → Except ε GetSecretValueResponse}
    {now : Nat} {b : GetSecretStringBuilder} {cache₁ : LruCache}
    (hnone : remote b.request = .ok { secret_string := none }) :
    send_fetch remote now b cache₁ =
      { outcome := .panicked,
        state := { b.secret_cache with cache := cache₁ },
        calls := [b.request] } := by
  simp only [send_fetch, fetch_secret, GetSecretStringBuilder.request] at hnone ⊢
  simp only [hnone]

/-- Under any of the three refresh conditions, `send` reduces to `send_fetch`,
applied to the store as the lookup left it. -/
theorem send_of_fetchPath {ε : Type} (remote : Request → Except ε GetSecretValueResponse)
    (now : Nat) (b : GetSecretStringBuilder) (hpath : fetchPath now b) :
    b.send remote now = send_fetch remote now b b.secret_cache.cache ∨
    b.send remote now = send_fetch remote now b (b.secret_cache.cache.touch b.secret_id) := by
  unfold GetSecretStringBuilder.send
  cases hf : b.force_refresh with
  | true => exact Or.inl (if_pos rfl)
  | false =>
    simp only [Bool.false_eq_true, if_false]
    cases hfind : b.secret_cache.cache.find b.secret_id with
    | none => exact Or.inr rfl
    | some item =>
      by_cases he : item.is_expired now = true
      · simp [he]
      · rcases hpath with h | h | ⟨item', hi, he'⟩
        · rw [hf] at h; cases h
        · rw [hfind] at h; cases h
        · rw [hfind] at hi
          injection hi with hi'
          rw [← hi'] at he'
          exact absurd he' he

/-- The freshly put entry is found under its key (capacity at least one). -/
theorem put_find_self (c : LruCache) (k : String) (v : CacheItem) (hcap : 1 ≤ c.cap) :
    (c.put k v).find k = some v := by
  have hkey : keyIs k (k, v) = true := by simp [keyIs]
  show (LruCache.find { c with items := putItems c.cap c.items k v } k) = some v
  simp only [LruCache.find, putItems]
  by_cases hc : c.cap < ((k, v) :: c.items.filter (fun q => !(keyIs k q))).length
  · rw [if_pos hc]
    cases hrest : c.items.filter (fun q => !(keyIs k q)) with
    | nil =>
      rw [hrest] at hc
      simp at hc
      omega
    | cons y zs =>
      rw [List.dropLast_cons₂, List.find?_cons_of_pos _ hkey]
      rfl
  · rw [if_neg hc, List.find?_cons_of_pos _ hkey]
    rfl

/-- C1: a get without force-refresh on a present, non-expired entry returns the
stored value, issues no remote request, and performs no store mutation other
than the LRU promotion of the lookup itself. -/
theorem claim_C1_fresh_hit_served_from_cache {ε : Type}
    (remote : Request → Except ε GetSecretValueResponse) (now : Nat)
    (b : GetSecretStringBuilder) (item : CacheItem)
    (hf : b.force_refresh = false)
    (hfind : b.secret_cache.cache.find b.secret_id = some item)
    (hexp : item.is_expired now = false) :
    (b.send remote now).outcome = .ok item.value ∧
    (b.send remote now).calls = [] ∧
    (b.send remote now).state.config = b.secret_cache.config ∧
    (b.send remote now).state.cache = (b.secret_cache.cache.get b.secret_id).2 ∧
    ∀ k, (b.send remote now).state.cache.find k = b.secret_cache.cache.find k := by
  have hsend : b.send remote now =
      { outcome := .ok item.value,
        state := { b.secret_cache with cache := b.secret_cache.cache.touch b.secret_id },
        calls := [] } := by
    unfold GetSecretStringBuilder.send
    simp only [hf, Bool.false_eq_true, if_false, hfind, hexp]
  rw [hsend]
  exact ⟨rfl, rfl, rfl, rfl, fun k => touch_find _ _ _⟩

/-- Witness for C1: a cache holding a fresh entry for "a" serves "x1" with no
remote call, even though the remote source would fail. -/
theorem claim_C1_witness :
    ((GetSecretStringBuilder.new
        { config := CacheConfig.new,
          cache := { cap := 2, items := [("a", { value := "x1", ttl := 100 })] } }
        "a").send (fun _ => (Except.error "boom" : Except String GetSecretValueResponse))
        50).outcome = SendOutcome.ok "x1" := by
  have h := claim_C1_fresh_hit_served_from_cache
    (fun _ => (Except.error "boom" : Except String GetSecretValueResponse)) 50
    (GetSecretStringBuilder.new
      { config := CacheConfig.new,
        cache := { cap := 2, items := [("a", { value := "x1", ttl := 100 })] } }
      "a")
    { value := "x1", ttl := 100 } rfl (by decide) (by decide)
  exact h.1

/-- C2: when the remote source fails, `send` surfaces the error verbatim after
exactly one remote call, and every id maps to the same stored entry before and
after the call (the stale entry, if any, stays in place). -/
theorem claim_C2_error_leaves_cache_unchanged {ε : Type}
    (remote : Request → Except ε GetSecretValueResponse) (now : Nat)
    (b : GetSecretStringBuilder) (e : ε)
    (hpath : fetchPath now b)
    (herr : remote b.request = .error e) :
    (b.send remote now).outcome = .error e ∧
    (b.send remote now).calls = [b.request] ∧
    (∀ k, (b.send remote now).state.cache.find k = b.secret_cache.cache.find k) ∧
    (b.send remote now).state.config = b.secret_cache.config := by
  rcases send_of_fetchPath remote now b hpath with hs | hs
  · rw [hs, send_fetch_error herr]
    exact ⟨rfl, rfl, fun k => rfl, rfl⟩
  · rw [hs, send_fetch_error herr]
    exact ⟨rfl, rfl, fun k => touch_find _ _ _, rfl⟩

/-- Witness for C2: a failing remote call on a cache miss surfaces "boom" and
leaves the (singleton) cache exactly as it was. -/
theorem claim_C2_witness :
    ((GetSecretStringBuilder.new
        { config := CacheConfig.new,
          cache := { cap := 2, items := [("a", { value := "x1", ttl := 100 })] } }
        "d").send (fun _ => (Except.error "boom" : Except String GetSecretValueResponse))
        50).outcome = SendOutcome.error "boom" := by
  have h := claim_C2_error_leaves_cache_unchanged
    (fun _ => (Except.error "boom" : Except String GetSecretValueResponse)) 50
    (GetSecretStringBuilder.new
      { config := CacheConfig.new,
        cache := { cap := 2, items := [("a", { value := "x1", ttl := 100 })] } }
      "d")
    "boom" (Or.inr (Or.inl (by decide))) rfl
  exact h.1

/-- C3: with force-refresh set, `send` issues exactly one remote call no matter
how fresh the cached entry is, and a successful fetch overwrites the entry for
the id with the fetched value and an expiry of `now` plus the configured TTL. -/
theorem claim_C3_force_refresh_bypasses_ttl {ε : Type}
    (remote : Request → Except ε GetSecretValueResponse) (now : Nat)
    (b : GetSecretStringBuilder)
    (hforce : b.force_refresh = true) :
    (b.send remote now).calls = [b.request] ∧
    ∀ v, remote b.request = .ok { secret_string := some v } →
      (b.send remote now).outcome = .ok v ∧
      (b.send remote now).state.cache =
        b.secret_cache.cache.put b.secret_id
          (CacheItem.new v b.secret_cache.config.cache_item_ttl now) ∧
      (1 ≤ b.secret_cache.cache.cap →
        (b.send remote now).state.cache.find b.secret_id =
          some (CacheItem.new v b.secret_cache.config.cache_item_ttl now)) := by
  have hs : b.send remote now = send_fetch remote now b b.secret_cache.cache := by
    unfold GetSecretStringBuilder.send
    rw [if_pos hforce]
  constructor
  · rw [hs]
    simp only [send_fetch]
    cases fetch_secret remote b.secret_id b.secret_cache.config.version_stage <;> rfl
  · intro v hok
    rw [hs, send_fetch_ok hok]
    exact ⟨rfl, rfl, fun hcap => put_find_self _ _ _ hcap⟩

/-- Witness for C3: a force-refresh over a fresh cached "z1" fetches and stores
"z2". -/
theorem claim_C3_witness :
    (((GetSecretStringBuilder.new
        { config := CacheConfig.new,
          cache := { cap := 2, items := [("c", { value := "z1", ttl := 100 })] } }
        "c").with_force_refresh).send
        (fun _ => (Except.ok { secret_string := some "z2" } :
          Except String GetSecretValueResponse)) 50).calls.length = 1 := by
  have h := claim_C3_force_refresh_bypasses_ttl
    (fun _ => (Except.ok { secret_string := some "z2" } :
      Except String GetSecretValueResponse)) 50
    ((GetSecretStringBuilder.new
      { config := CacheConfig.new,
        cache := { cap := 2, items := [("c", { value := "z1", ttl := 100 })] } }
      "c").with_force_refresh)
    rfl
  rw [h.1]
  rfl

/-- C5: an expired entry (current time strictly past its expiry) is never
served: `send` without force-refresh issues exactly one remote call and its
outcome is entirely determined by the fetch, not by the stored value. -/
theorem claim_C5_expired_entry_never_served {ε : Type}
    (remote : Request → Except ε GetSecretValueResponse) (now : Nat)
    (b : GetSecretStringBuilder) (item : CacheItem)
    (hf : b.force_refresh = false)
    (hfind : b.secret_cache.cache.find b.secret_id = some item)
    (hexp : item.is_expired now = true) :
    (b.send remote now).calls = [b.request] ∧
    (b.send remote now).outcome =
      SendOutcome.ofFetch (fetch_secret remote b.secret_id b.secret_cache.config.version_stage) := by
  have hs : b.send remote now = send_fetch remote now b (b.secret_cache.cache.touch b.secret_id) := by
    unfold GetSecretStringBuilder.send
    simp only [hf, Bool.false_eq_true, if_false, hfind, hexp, if_true]
  rw [hs]
  simp only [send_fetch]
  cases fetch_secret remote b.secret_id b.secret_cache.config.version_stage <;> exact ⟨rfl, rfl⟩

/-- Witness for C5: an entry expired at time 200 triggers a remote call that
returns "y2", which is served instead of the stale "y1". -/
theorem claim_C5_witness :
    ((GetSecretStringBuilder.new
        { config := CacheConfig.new,
          cache := { cap := 2, items := [("b", { value := "y1", ttl := 100 })] } }
        "b").send (fun _ => (Except.ok { secret_string := some "y2" } :
          Except String GetSecretValueResponse)) 200).outcome = SendOutcome.ok "y2" := by
  have h := claim_C5_expired_entry_never_served
    (fun _ => (Except.ok { secret_string := some "y2" } :
      Except String GetSecretValueResponse)) 200
    (GetSecretStringBuilder.new
      { config := CacheConfig.new,
        cache := { cap := 2, items := [("b", { value := "y1", ttl := 100 })] } }
      "b")
    { value := "y1", ttl := 100 } rfl (by decide) (by decide)
  rw [h.2]
  rfl

/-- The fetch panics exactly when the remote source succeeds with an
absent `secret_string`. -/
theorem fetch_secret_panicked_iff {ε : Type}
    (remote : Request → Except ε GetSecretValueResponse) (sid vs : String) :
    fetch_secret remote sid vs = .panicked ↔
      remote { secret_id := sid, version_stage := vs } = .ok { secret_string := none } := by
  unfold fetch_secret
  cases hr : remote { secret_id := sid, version_stage := vs } with
  | error e => simp
  | ok resp =>
    cases resp with
    | mk ss =>
      cases ss with
      | some s => simp
      | none => simp

/-- If every successful remote response carries a secret string, the refresh
path cannot panic. -/
theorem send_fetch_not_panicked {ε : Type} {remote : Request → Except ε GetSecretValueResponse}
    {now : Nat} {b : GetSecretStringBuilder} {cache₁ : LruCache}
    (hall : ∀ r resp, remote r = .ok resp → resp.secret_string ≠ none) :
    (send_fetch remote now b cache₁).outcome ≠ SendOutcome.panicked := by
  simp only [send_fetch]
  cases hfs : fetch_secret remote b.secret_id b.secret_cache.config.version_stage with
  | ok v => simp
  | err e => simp
  | panicked =>
    exact absurd rfl
      (hall _ _ ((fetch_secret_panicked_iff remote b.secret_id
        b.secret_cache.config.version_stage).mp hfs))

/-- C6: if the remote fetch succeeds but the response has no secret string,
`fetch_secret` panics and so does `send` on any refresh path — and conversely,
under the precondition that every successful response carries a secret string,
`send` never panics. -/
theorem claim_C6_missing_secret_string_panics {ε : Type}
    (remote : Request → Except ε GetSecretValueResponse) (now : Nat)
    (b : GetSecretStringBuilder) :
    (remote b.request = .ok { secret_string := none } →
      fetch_secret remote b.secret_id b.secret_cache.config.version_stage = .panicked) ∧
    (fetchPath now b → remote b.request = .ok { secret_string := none } →
      (b.send remote now).outcome = .panicked) ∧
    ((∀ r resp, remote r = .ok resp → resp.secret_string ≠ none) →
      (b.send remote now).outcome ≠ .panicked) := by
  refine ⟨?_, ?_, ?_⟩
  · intro hnone
    exact (fetch_secret_panicked_iff remote _ _).mpr hnone
  · intro hpath hnone
    rcases send_of_fetchPath remote now b hpath with hs | hs <;>
      rw [hs, send_fetch_panic hnone]
  · intro hall
    cases hf : b.force_refresh with
    | true =>
      have hs : b.send remote now = send_fetch remote now b b.secret_cache.cache := by
        unfold GetSecretStringBuilder.send
        rw [if_pos hf]
      rw [hs]
      exact send_fetch_not_panicked hall
    | false =>
      cases hfind : b.secret_cache.cache.find b.secret_id with
      | none =>
        have hs : b.send remote now =
            send_fetch remote now b (b.secret_cache.cache.touch b.secret_id) := by
          unfold GetSecretStringBuilder.send
          simp only [hf, Bool.false_eq_true, if_false, hfind]
        rw [hs]
        exact send_fetch_not_panicked hall
      | some item =>
        cases he : item.is_expired now with
        | true =>
          have hs : b.send remote now =
              send_fetch remote now b (b.secret_cache.cache.touch b.secret_id) := by
            unfold GetSecretStringBuilder.send
            simp only [hf, Bool.false_eq_true, if_false, hfind, he, if_true]
          rw [hs]
          exact send_fetch_not_panicked hall
        | false =>
          have hs : (b.send remote now).outcome = .ok item.value := by
            unfold GetSecretStringBuilder.send
            simp only [hf, Bool.false_eq_true, if_false, hfind, he]
          rw [hs]
          simp

/-- Witness for C6: a successful remote response with no secret string makes
`send` panic on a cache miss. -/
theorem claim_C6_witness :
    ((GetSecretStringBuilder.new
        { config := CacheConfig.new, cache := LruCache.empty 2 } "bin").send
        (fun _ => (Except.ok { secret_string := none } : Except String GetSecretValueResponse))
        50).outcome = SendOutcome.panicked := by
  have h := claim_C6_missing_secret_string_panics
    (fun _ => (Except.ok { secret_string := none } : Except String GetSecretValueResponse)) 50
    (GetSecretStringBuilder.new { config := CacheConfig.new, cache := LruCache.empty 2 } "bin")
  exact h.2.1 (Or.inr (Or.inl (by decide))) rfl

/-- Entries of the store after the refresh path: either carried over unchanged
from the pre-lookup store, or freshly constructed with expiry `now + TTL`. -/
theorem send_fetch_state_mem {ε : Type} {remote : Request → Except ε GetSecretValueResponse}
    {now : Nat} {b : GetSecretStringBuilder} {cache₁ : LruCache} {p : String × CacheItem}
    (hsub : ∀ q : String × CacheItem, q ∈ cache₁.items → q ∈ b.secret_cache.cache.items)
    (hp : p ∈ (send_fetch remote now b cache₁).state.cache.items) :
    p ∈ b.secret_cache.cache.items ∨
      p.2.ttl = now + b.secret_cache.config.cache_item_ttl := by
  simp only [send_fetch] at hp
  cases hfs : fetch_secret remote b.secret_id b.secret_cache.config.version_stage with
  | ok v =>
    rw [hfs] at hp
    rcases put_mem hp with h | h
    · right
      rw [h]
      rfl
    · left
      exact hsub p h
  | panicked =>
    rw [hfs] at hp
    left
    exact hsub p hp
  | err e =>
    rw [hfs] at hp
    left
    exact hsub p hp

/-- C8: the expiry of a cache entry is fixed at construction as `now + TTL`,
`is_expired` holds exactly when the current time strictly exceeds the expiry,
and every entry in the store after a `send` either is an untouched pre-existing
entry or was freshly constructed at this call with expiry `now + TTL`. -/
theorem claim_C8_expiry_fixed_at_construction {ε : Type} :
    (∀ (v : String) (cache_item_ttl now : Nat),
      (CacheItem.new v cache_item_ttl now).ttl = now + cache_item_ttl) ∧
    (∀ (item : CacheItem) (now : Nat), item.is_expired now = true ↔ item.ttl < now) ∧
    (∀ (remote : Request → Except ε GetSecretValueResponse) (now : Nat)
      (b : GetSecretStringBuilder) (p : String × CacheItem),
      p ∈ (b.send remote now).state.cache.items →
      p ∈ b.secret_cache.cache.items ∨
        p.2.ttl = now + b.secret_cache.config.cache_item_ttl) := by
  refine ⟨fun v ttl now => rfl, fun item now => by simp [CacheItem.is_expired], ?_⟩
  intro remote now b p hp
  cases hf : b.force_refresh with
  | true =>
    have hs : b.send remote now = send_fetch remote now b b.secret_cache.cache := by
      unfold GetSecretStringBuilder.send
      rw [if_pos hf]
    rw [hs] at hp
    exact send_fetch_state_mem (fun q hq => hq) hp
  | false =>
    cases hfind : b.secret_cache.cache.find b.secret_id with
    | none =>
      have hs : b.send remote now =
          send_fetch remote now b (b.secret_cache.cache.touch b.secret_id) := by
        unfold GetSecretStringBuilder.send
        simp only [hf, Bool.false_eq_true, if_false, hfind]
      rw [hs] at hp
      exact send_fetch_state_mem (fun q hq => touch_mem hq) hp
    | some item =>
      cases he : item.is_expired now with
      | true =>
        have hs : b.send remote now =
            send_fetch remote now b (b.secret_cache.cache.touch b.secret_id) := by
          unfold GetSecretStringBuilder.send
          simp only [hf, Bool.false_eq_true, if_false, hfind, he, if_true]
        rw [hs] at hp
        exact send_fetch_state_mem (fun q hq => touch_mem hq) hp
      | false =>
        have hs : (b.send remote now).state.cache = b.secret_cache.cache.touch b.secret_id := by
          unfold GetSecretStringBuilder.send
          simp only [hf, Bool.false_eq_true, if_false, hfind, he]
        rw [hs] at hp
        exact Or.inl (touch_mem hp)

/-- Witness for C8: after a miss-triggered fetch at time 50 with the default
one-hour TTL, the stored entry for "a" expires at `50 + 3600000000000`. -/
theorem claim_C8_witness :
    ("a", { value := "v1", ttl := 50 + 3600000000000 }) ∈
      ((GetSecretStringBuilder.new
        { config := CacheConfig.new, cache := LruCache.empty 2 } "a").send
        (fun _ => (Except.ok { secret_string := some "v1" } : Except String GetSecretValueResponse))
        50).state.cache.items ∧
    (("a", ({ value := "v1", ttl := 50 + 3600000000000 } : CacheItem)) ∈
        (GetSecretStringBuilder.new
          { config := CacheConfig.new, cache := LruCache.empty 2 } "a").secret_cache.cache.items ∨
      ({ value := "v1", ttl := 50 + 3600000000000 } : CacheItem).ttl =
        50 + (GetSecretStringBuilder.new
          { config := CacheConfig.new, cache := LruCache.empty 2 } "a").secret_cache.config.cache_item_ttl) := by
  constructor
  · decide
  · exact (claim_C8_expiry_fixed_at_construction (ε := String)).2.2
      (fun _ => (Except.ok { secret_string := some "v1" } : Except String GetSecretValueResponse))
      50
      (GetSecretStringBuilder.new
        { config := CacheConfig.new, cache := LruCache.empty 2 } "a")
      ("a", { value := "v1", ttl := 50 + 3600000000000 })
      (by decide)

/-- LRU promotion does not increase the number of stored entries. -/
theorem touch_length_le (c : LruCache) (k : String) (h : c.items.length ≤ c.cap) :
    (c.touch k).items.length ≤ c.cap := by
  show (touchItems c.items k).length ≤ c.cap
  unfold touchItems
  cases hf : c.items.find? (keyIs k) with
  | none => exact h
  | some p =>
    have hlt := length_filter_lt_of_found (keyIs k) c.items p hf
    simp only [List.length_cons]
    omega

/-- Insertion respects the capacity bound. -/
theorem put_length_le (c : LruCache) (k : String) (v : CacheItem) (h : c.items.length ≤ c.cap) :
    (c.put k v).items.length ≤ c.cap := by
  show (putItems c.cap c.items k v).length ≤ c.cap
  simp only [putItems]
  have hfl : (c.items.filter (fun q => !(keyIs k q))).length ≤ c.items.length :=
    List.length_filter_le _ _
  by_cases hc : c.cap < ((k, v) :: c.items.filter (fun q => !(keyIs k q))).length
  · rw [if_pos hc, List.length_dropLast]
    simp only [List.length_cons]
    omega
  · rw [if_neg hc]
    simp only [List.length_cons] at hc ⊢
    omega

/-- Store operations keep the capacity. -/
theorem applyOp_cap (c : LruCache) (op : CacheOp) : (c.applyOp op).cap = c.cap := by
  cases op <;> rfl

/-- Each store operation respects the capacity bound. -/
theorem applyOp_length_le (c : LruCache) (op : CacheOp) (h : c.items.length ≤ c.cap) :
    (c.applyOp op).items.length ≤ c.cap := by
  cases op with
  | getOp k => exact touch_length_le c k h
  | putOp k item => exact put_length_le c k item h

/-- Over any sequence of store operations, the capacity is unchanged and the
number of stored entries stays bounded by it. -/
theorem foldl_applyOp_inv : ∀ (ops : List CacheOp) (c : LruCache),
    c.items.length ≤ c.cap →
    (ops.foldl LruCache.applyOp c).cap = c.cap ∧
    (ops.foldl LruCache.applyOp c).items.length ≤ c.cap
  | [], c, h => ⟨rfl, h⟩
  | op :: ops, c, h => by
    have hcap := applyOp_cap c op
    have hlen : (c.applyOp op).items.length ≤ (c.applyOp op).cap := by
      rw [hcap]
      exact applyOp_length_le c op h
    have ih := foldl_applyOp_inv ops (c.applyOp op) hlen
    simp only [List.foldl_cons]
    constructor
    · rw [ih.1, hcap]
    · have h2 := ih.2
      rw [hcap] at h2
      exact h2

/-- Inserting a new key into a full store drops exactly the tail (the
least-recently-used entry) and stays at capacity. -/
theorem put_new_key_at_capacity (c : LruCache) (k : String) (v : CacheItem)
    (hcap : 1 ≤ c.cap) (hfull : c.items.length = c.cap) (hnew : containsKey c k = false) :
    (c.put k v).items = (k, v) :: c.items.dropLast ∧
    (c.put k v).items.length = c.cap := by
  have hfe := filter_eq_self_of_not_contains c k hnew
  have hc : c.cap < ((k, v) :: c.items.filter (fun q => !(keyIs k q))).length := by
    rw [hfe]
    simp only [List.length_cons, hfull]
    omega
  have hitems : (c.put k v).items = ((k, v) :: c.items).dropLast := by
    show putItems c.cap c.items k v = _
    simp only [putItems]
    rw [if_pos hc, hfe]
  constructor
  · rw [hitems]
    cases hι : c.items with
    | nil =>
      rw [hι] at hfull
      simp at hfull
      omega
    | cons y ys => rw [List.dropLast_cons₂]
  · rw [hitems, List.length_dropLast]
    simp only [List.length_cons]
    omega

/-- Under unique keys, the key evicted by a full-store insert of a new key is
the least-recently-used one: it is no longer found afterwards. -/
theorem put_evicts_lru (c : LruCache) (k : String) (v : CacheItem) (k₀ : String) (it₀ : CacheItem)
    (hnodup : keysNodup c) (hcap : 1 ≤ c.cap) (hfull : c.items.length = c.cap)
    (hnew : containsKey c k = false) (hlast : c.items.getLast? = some (k₀, it₀)) :
    (c.put k v).find k₀ = none := by
  have hne : c.items ≠ [] := by
    intro h
    rw [h] at hlast
    cases hlast
  have hlast' : c.items.getLast hne = (k₀, it₀) := by
    have := List.getLast?_eq_getLast c.items hne
    rw [hlast] at this
    exact (Option.some.injEq _ _).mp this.symm
  have hsplit : c.items.dropLast ++ [(k₀, it₀)] = c.items := by
    rw [← hlast']
    exact List.dropLast_append_getLast hne
  have hk₀_not_in : k₀ ∉ c.items.dropLast.map Prod.fst := by
    have hnd : (c.items.dropLast.map Prod.fst ++ [k₀]).Nodup := by
      have : (c.items.dropLast ++ [(k₀, it₀)]).map Prod.fst =
          c.items.dropLast.map Prod.fst ++ [k₀] := by
        rw [List.map_append]
        rfl
      rw [← this, hsplit]
      exact hnodup
    intro hmem
    exact (List.nodup_append.mp hnd).2.2 hmem (List.mem_singleton.mpr rfl)
  have hk₀k : ¬ (k = k₀) := by
    intro hkk
    have hmem₀ : (k₀, it₀) ∈ c.items := by
      rw [← hlast']
      exact List.getLast_mem hne
    have hno := List.any_eq_false.mp hnew (k₀, it₀) hmem₀
    rw [hkk] at hno
    exact hno ((keyIs_iff k₀ (k₀, it₀)).mpr rfl)
  have hitems := (put_new_key_at_capacity c k v hcap hfull hnew).1
  show ((c.put k v).items.find? (keyIs k₀)).map Prod.snd = none
  rw [hitems]
  have hhead : ¬ keyIs k₀ (k, v) = true := by
    rw [keyIs_iff]
    exact hk₀k
  rw [List.find?_cons_of_neg _ hhead]
  have hnonefind : c.items.dropLast.find? (keyIs k₀) = none := by
    apply List.find?_eq_none.mpr
    intro x hx hkx
    exact hk₀_not_in ((keyIs_iff k₀ x).mp hkx ▸ List.mem_map_of_mem Prod.fst hx)
  rw [hnonefind]
  rfl

/-- Overwriting an existing key never evicts: all previously present keys stay
present. -/
theorem put_overwrite_no_evict (c : LruCache) (k : String) (v : CacheItem)
    (hinv : c.items.length ≤ c.cap) (hold : containsKey c k = true) :
    ∀ k', containsKey c k' = true → containsKey (c.put k v) k' = true := by
  obtain ⟨p, hpmem, hpk⟩ := List.any_eq_true.mp hold
  have hfind : ∃ a, c.items.find? (keyIs k) = some a := by
    cases hf : c.items.find? (keyIs k) with
    | some a => exact ⟨a, rfl⟩
    | none => exact absurd hpk (List.find?_eq_none.mp hf p hpmem)
  obtain ⟨a, ha⟩ := hfind
  have hlt := length_filter_lt_of_found (keyIs k) c.items a ha
  have hc : ¬ c.cap < ((k, v) :: c.items.filter (fun q => !(keyIs k q))).length := by
    simp only [List.length_cons]
    omega
  have hitems : (c.put k v).items = (k, v) :: c.items.filter (fun q => !(keyIs k q)) := by
    show putItems c.cap c.items k v = _
    simp only [putItems]
    rw [if_neg hc]
  intro k' hk'
  show (c.put k v).items.any (keyIs k') = true
  rw [hitems]
  by_cases hkk : k' = k
  · subst hkk
    simp [keyIs]
  · obtain ⟨q, hqmem, hqk⟩ := List.any_eq_true.mp hk'
    apply List.any_eq_true.mpr
    refine ⟨q, List.mem_cons_of_mem _ (List.mem_filter.mpr ⟨hqmem, ?_⟩), hqk⟩
    have hq1 : q.1 = k' := (keyIs_iff k' q).mp hqk
    simp [keyIs, hq1, hkk]

/-- C4: over any sequence of store operations the entry count never exceeds the
capacity; a full-store insert of a new key evicts exactly the
least-recently-used (tail) entry and stays at capacity; overwriting an
existing key evicts nothing. -/
theorem claim_C4_capacity_bound_and_lru_eviction :
    (∀ (ops : List CacheOp) (c : LruCache),
      c.items.length ≤ c.cap →
      (ops.foldl LruCache.applyOp c).items.length ≤ c.cap) ∧
    (∀ (c : LruCache) (k : String) (v : CacheItem),
      1 ≤ c.cap → c.items.length = c.cap → containsKey c k = false →
      (c.put k v).items = (k, v) :: c.items.dropLast ∧
      (c.put k v).items.length = c.cap ∧
      (keysNodup c → ∀ (k₀ : String) (it₀ : CacheItem),
        c.items.getLast? = some (k₀, it₀) → (c.put k v).find k₀ = none)) ∧
    (∀ (c : LruCache) (k : String) (v : CacheItem),
      c.items.length ≤ c.cap → containsKey c k = true →
      ∀ k', containsKey c k' = true → containsKey (c.put k v) k' = true) := by
  refine ⟨fun ops c h => (foldl_applyOp_inv ops c h).2, ?_,
    fun c k v hinv hold => put_overwrite_no_evict c k v hinv hold⟩
  intro c k v hcap hfull hnew
  exact ⟨(put_new_key_at_capacity c k v hcap hfull hnew).1,
    (put_new_key_at_capacity c k v hcap hfull hnew).2,
    fun hnodup k₀ it₀ hlast => put_evicts_lru c k v k₀ it₀ hnodup hcap hfull hnew hlast⟩

/-- Witness for C4: a capacity-1 store stays at one entry over a put-put-get
sequence; inserting "c" into a full two-entry store evicts the
least-recently-used "b"; overwriting "a" keeps "b". -/
theorem claim_C4_witness :
    (([CacheOp.putOp "a" { value := "x", ttl := 0 },
       CacheOp.putOp "b" { value := "y", ttl := 0 },
       CacheOp.getOp "a"].foldl LruCache.applyOp (LruCache.empty 1)).items.length ≤ 1) ∧
    (({ cap := 2,
        items := [("a", { value := "x", ttl := 0 }), ("b", { value := "y", ttl := 0 })] } :
        LruCache).put "c" { value := "z", ttl := 0 }).find "b" = none ∧
    containsKey
      (({ cap := 2,
          items := [("a", { value := "x", ttl := 0 }), ("b", { value := "y", ttl := 0 })] } :
          LruCache).put "a" { value := "w", ttl := 0 }) "b" = true := by
  refine ⟨claim_C4_capacity_bound_and_lru_eviction.1 _ _ (by decide), ?_, ?_⟩
  · exact (claim_C4_capacity_bound_and_lru_eviction.2.1
      { cap := 2,
        items := [("a", { value := "x", ttl := 0 }), ("b", { value := "y", ttl := 0 })] }
      "c" { value := "z", ttl := 0 } (by decide) (by decide) (by decide)).2.2
      (by unfold keysNodup; decide) "b" { value := "y", ttl := 0 } (by decide)
  · exact claim_C4_capacity_bound_and_lru_eviction.2.2
      { cap := 2,
        items := [("a", { value := "x", ttl := 0 }), ("b", { value := "y", ttl := 0 })] }
      "a" { value := "w", ttl := 0 } (by decide) (by decide) "b" (by decide)
